import Mathlib

/-!
Verification development for an inode-based disk-image extractor
(`src/main.py`).  The image is modelled as a flat list of bytes
(`List Nat`, each element < 256 in practice); Python's `seek`/`read`
becomes `readAt`, which returns up to `len` bytes starting at `off`
(fewer near end-of-file, as Python's `read` does).  `struct.unpack`
calls become decoders returning `Option` and failing (`none`) exactly
when the buffer length differs from the format size, modelling the
`struct.error` exception, which propagates and aborts the run.
-/

/-- Block size constant, `BLOCK_SIZE = 512` in the source. -/
def BLOCK_SIZE : Nat := 512

/-- Inode record size constant, `DISK_INODE_SIZE = 128` in the source. -/
def DISK_INODE_SIZE : Nat := 128

/-- Directory entry size constant, `DIR_ENTRY_SIZE = 32` in the source. -/
def DIR_ENTRY_SIZE : Nat := 32

/-- Superblock magic constant, `MAGIC_NUMBER = 0x3B80_0001` in the source. -/
def MAGIC_NUMBER : Nat := 0x3B800001

/-- Python `image.seek(off); image.read(len)`: the bytes of the image from
offset `off`, at most `len` of them (fewer when the image ends early). -/
def readAt (img : List Nat) (off len : Nat) : List Nat :=
  (img.drop off).take len

/-- Reading one 512-byte block by index: `image.seek(index * BLOCK_SIZE);
image.read(BLOCK_SIZE)` as it appears throughout the source. -/
def readBlock (img : List Nat) (index : Nat) : List Nat :=
  readAt img (index * BLOCK_SIZE) BLOCK_SIZE

/-- Little-endian interpretation of a byte list as one natural number. -/
def leNat : List Nat → Nat
  | [] => 0
  | b :: rest => b + 256 * leNat rest

/-- Decode a byte list as consecutive little-endian 4-byte unsigned
integers (the `I` fields of the `struct` formats); trailing bytes that
do not fill a group of four are dropped. -/
def u32sOf : List Nat → List Nat
  | b0 :: b1 :: b2 :: b3 :: rest => leNat [b0, b1, b2, b3] :: u32sOf rest
  | _ => []

/-- `struct.unpack("<128I", data)`: fails unless `data` is exactly 512
bytes, otherwise yields the 128 little-endian 32-bit entries. -/
def unpackIndirectBlock (data : List Nat) : Option (List Nat) :=
  if data.length = 512 then some (u32sOf data) else none

/-- The in-memory `Inode` record of the source: file type, declared byte
size, 27 direct block pointers and three indirect pointers. -/
structure Inode where
  file_type : Nat
  size : Nat
  direct : List Nat
  indirect1 : Nat
  indirect2 : Nat
  indirect3 : Nat
deriving DecidableEq

/-- `struct.unpack("<B3xI27IIII", data)` followed by the `Inode(...)`
construction: byte 0 is the file type, bytes 4..7 the size, then 27
direct pointers and the three indirect pointers, all little-endian;
fails unless the buffer is exactly 128 bytes. -/
def decodeInode (data : List Nat) : Option Inode :=
  if data.length = 128 then
    let ws := u32sOf (data.drop 4)
    some { file_type := data.headD 0
           size := ws.headD 0
           direct := (ws.drop 1).take 27
           indirect1 := ws.getD 28 0
           indirect2 := ws.getD 29 0
           indirect3 := ws.getD 30 0 }
  else none

/-- `struct.unpack("<28sI", entry)` followed by
`name.split(b"\x00", 1)[0]`: the name is the 28-byte field cut at the
first null byte (all 28 bytes when no null occurs), the child inode
index is the trailing little-endian 32-bit integer; fails unless the
buffer is exactly 32 bytes.  This covers the unpack and split steps of
the source; the trailing `.decode()` text step of the same line is
modelled on top of it by `decodeDirEntryText` below. -/
def decodeDirEntry (entry : List Nat) : Option (List Nat × Nat) :=
  if entry.length = 32 then
    some ((entry.take 28).takeWhile (fun b => b != 0), leNat (entry.drop 28))
  else none

/-- Python `bytes.decode()` with the default strict UTF-8 codec succeeds
exactly on well-formed UTF-8 (Unicode Table 3-7: no stray continuation
bytes, no overlong encodings, no surrogates, nothing above U+10FFFF) and
raises `UnicodeDecodeError` otherwise.  This checker recognises the
well-formed byte sequences. -/
def validUtf8 : List Nat → Bool
  | [] => true
  | b :: rest =>
    if b < 0x80 then validUtf8 rest
    else if b < 0xC2 then false
    else if b < 0xE0 then
      match rest with
      | c1 :: rest2 =>
        if 0x80 ≤ c1 ∧ c1 < 0xC0 then validUtf8 rest2 else false
      | _ => false
    else if b < 0xF0 then
      match rest with
      | c1 :: c2 :: rest2 =>
        let ok1 : Bool :=
          if b = 0xE0 then decide (0xA0 ≤ c1 ∧ c1 < 0xC0)
          else if b = 0xED then decide (0x80 ≤ c1 ∧ c1 < 0xA0)
          else decide (0x80 ≤ c1 ∧ c1 < 0xC0)
        if ok1 ∧ 0x80 ≤ c2 ∧ c2 < 0xC0 then validUtf8 rest2 else false
      | _ => false
    else if b < 0xF5 then
      match rest with
      | c1 :: c2 :: c3 :: rest2 =>
        let ok1 : Bool :=
          if b = 0xF0 then decide (0x90 ≤ c1 ∧ c1 < 0xC0)
          else if b = 0xF4 then decide (0x80 ≤ c1 ∧ c1 < 0x90)
          else decide (0x80 ≤ c1 ∧ c1 < 0xC0)
        if ok1 ∧ 0x80 ≤ c2 ∧ c2 < 0xC0 ∧ 0x80 ≤ c3 ∧ c3 < 0xC0
        then validUtf8 rest2 else false
      | _ => false
    else false

/-- The complete directory-entry decoding of `main.py` line 96-100,
including the final `.decode()`: the unpacked and null-split name must
additionally be valid UTF-8, otherwise the `UnicodeDecodeError`
exception aborts the decode (modelled as `none`).  The decoded string
is kept as its underlying byte sequence, which determines it
uniquely. -/
def decodeDirEntryText (entry : List Nat) : Option (List Nat × Nat) :=
  match decodeDirEntry entry with
  | none => none
  | some (name, child_inode_index) =>
    if validUtf8 name then some (name, child_inode_index) else none

/-- Python `range(start, stop, step)` for a positive step, as used by the
directory-entry loop `range(DIR_ENTRY_SIZE * 2, inode.size, DIR_ENTRY_SIZE)`. -/
def pyRange (start stop step : Nat) : List Nat :=
  if h : start < stop ∧ 0 < step then
    start :: pyRange (start + step) stop step
  else []
termination_by stop - start
decreasing_by exact Nat.sub_lt_sub_left h.1 (Nat.lt_add_of_pos_right h.2)

mutual

/-- `read_indirect_block(image, indirect_block_index, level)` from the
source: reads the indirect block, unpacks it as 128 little-endian block
indices and walks them via `readEntries`.  The source is only ever
called with `level ∈ {1, 2, 3}`; level 0 (unreachable, and
non-terminating in Python) is modelled as a failure. -/
def read_indirect_block (img : List Nat) (indirect_block_index : Nat) :
    Nat → Option (List Nat)
  | 0 => none
  | l + 1 =>
    match unpackIndirectBlock (readBlock img indirect_block_index) with
    | none => none
    | some indices => readEntries img l indices
termination_by level => (level, 1)

/-- The `for index in indirect_block_indices` loop of
`read_indirect_block`: stop at the first 0 entry; at level 1 (`l = 0`)
append the raw 512-byte data block, otherwise recurse one level down
and append the result. -/
def readEntries (img : List Nat) (l : Nat) : List Nat → Option (List Nat)
  | [] => some []
  | index :: rest =>
    if index = 0 then some []
    else
      match (if l = 0 then some (readBlock img index)
             else read_indirect_block img index l) with
      | none => none
      | some head =>
        match readEntries img l rest with
        | none => none
        | some tail => some (head ++ tail)
termination_by indices => (l, indices.length + 2)

end

/-- The `for block_index in inode.direct` loop of `extract_inode_data`:
read each direct block in order, stopping at the first 0 pointer. -/
def readDirectBlocks (img : List Nat) : List Nat → List Nat
  | [] => []
  | index :: rest =>
    if index = 0 then []
    else readBlock img index ++ readDirectBlocks img rest

/-- `extract_inode_data(image, inode)` from the source: concatenate the
direct blocks, then the data reached through each nonzero indirect
pointer at levels 1, 2 and 3, and truncate to `inode.size` bytes
(Python `data[: inode.size]`, which never pads). -/
def extract_inode_data (img : List Nat) (inode : Inode) : Option (List Nat) :=
  let d0 := readDirectBlocks img inode.direct
  match (if inode.indirect1 ≠ 0 then read_indirect_block img inode.indirect1 1
         else some []) with
  | none => none
  | some d1 =>
    match (if inode.indirect2 ≠ 0 then read_indirect_block img inode.indirect2 2
           else some []) with
    | none => none
    | some d2 =>
      match (if inode.indirect3 ≠ 0 then read_indirect_block img inode.indirect3 3
             else some []) with
      | none => none
      | some d3 => some ((d0 ++ d1 ++ d2 ++ d3).take inode.size)

mutual

/-- Modelled from the spec: the block-index view of indirect resolution
(the spec's `resolveDataBlocks`, step for one indirect pointer).
Structured exactly like `read_indirect_block` but collecting block
indices instead of block contents, for the refinement theorems. -/
def resolveIndirect (img : List Nat) (indirect_block_index : Nat) :
    Nat → Option (List Nat)
  | 0 => none
  | l + 1 =>
    match unpackIndirectBlock (readBlock img indirect_block_index) with
    | none => none
    | some indices => resolveEntries img l indices
termination_by level => (level, 1)

/-- Modelled from the spec: entry walk of `resolveIndirect`, stopping at
the first 0 entry; at level 1 the entry itself is a data-block index. -/
def resolveEntries (img : List Nat) (l : Nat) : List Nat → Option (List Nat)
  | [] => some []
  | index :: rest =>
    if index = 0 then some []
    else
      match (if l = 0 then some [index] else resolveIndirect img index l) with
      | none => none
      | some head =>
        match resolveEntries img l rest with
        | none => none
        | some tail => some (head ++ tail)
termination_by indices => (l, indices.length + 2)

end

/-- Modelled from the spec: `resolveDataBlocks(inode)` — the ordered
list of data-block indices backing an inode: directs up to the first 0,
then the blocks reached through each nonzero indirect pointer at levels
1, 2 and 3. -/
def resolveDataBlocks (img : List Nat) (inode : Inode) : Option (List Nat) :=
  let b0 := inode.direct.takeWhile (fun x => x != 0)
  match (if inode.indirect1 ≠ 0 then resolveIndirect img inode.indirect1 1
         else some []) with
  | none => none
  | some b1 =>
    match (if inode.indirect2 ≠ 0 then resolveIndirect img inode.indirect2 2
           else some []) with
    | none => none
    | some b2 =>
      match (if inode.indirect3 ≠ 0 then resolveIndirect img inode.indirect3 3
             else some []) with
      | none => none
      | some b3 => some (b0 ++ b1 ++ b2 ++ b3)

/-- A file write performed by the restore walk: the output path (as a
list of name segments relative to the output directory) and the bytes
written. -/
abbrev DirWrite : Type := List (List Nat) × List Nat

mutual

/-- `extract_directory(image, inode_index, output_path)` from the
source, with the host-filesystem side effects reified as the returned
list of (path, bytes) file writes.  The inode record is read at byte
offset `BLOCK_SIZE * 2 + DISK_INODE_SIZE * inode_index` and unpacked;
a directory inode's content is extracted and its entries iterated at
offsets `range(DIR_ENTRY_SIZE * 2, inode.size, DIR_ENTRY_SIZE)`,
recursing with path `os.path.join(output_path, name)`; a file inode's
content is written at the current path; other file types do nothing.
The source recursion is unbounded (Python would overflow the stack on
a cyclic image); the embedding adds explicit fuel and treats
exhaustion as failure, which agrees with the source on every image on
which the source terminates. -/
def extract_directory (img : List Nat) :
    Nat → Nat → List (List Nat) → Option (List DirWrite)
  | 0, _, _ => none
  | fuel + 1, inode_index, output_path =>
    match decodeInode (readAt img (BLOCK_SIZE * 2 + DISK_INODE_SIZE * inode_index)
        DISK_INODE_SIZE) with
    | none => none
    | some inode =>
      if inode.file_type = 1 then
        match extract_inode_data img inode with
        | none => none
        | some directory_data =>
          dirEntryLoop img fuel directory_data output_path
            (pyRange (DIR_ENTRY_SIZE * 2) inode.size DIR_ENTRY_SIZE)
      else if inode.file_type = 0 then
        match extract_inode_data img inode with
        | none => none
        | some file_data => some [(output_path, file_data)]
      else some []
termination_by fuel => (fuel, 0)

/-- The `for offset in range(...)` loop of `extract_directory`: decode
the 32-byte entry at each offset of the directory's content and recurse
into the child inode with the entry's name joined onto the path.  The
walker is stated over the byte-level split `decodeDirEntry`; the text
step of the per-entry decode, with its failure on non-UTF-8 names, is
modelled by `decodeDirEntryText`. -/
def dirEntryLoop (img : List Nat) (fuel : Nat) (directory_data : List Nat)
    (output_path : List (List Nat)) : List Nat → Option (List DirWrite)
  | [] => some []
  | offset :: rest =>
    match decodeDirEntry (readAt directory_data offset DIR_ENTRY_SIZE) with
    | none => none
    | some (name, child_inode_index) =>
      match extract_directory img fuel child_inode_index (output_path ++ [name]) with
      | none => none
      | some sub =>
        match dirEntryLoop img fuel directory_data output_path rest with
        | none => none
        | some rs => some (sub ++ rs)
termination_by offsets => (fuel, offsets.length + 1)

end

/-- The inode-bitmap list comprehension of `extract_all_files`: for each
byte of the bitmap in order and each bit position 0..7 (least
significant first), the index `byte_index * 8 + bit` is allocated when
`byte & (1 << bit) != 0`. -/
def allocatedInodeIndices (inode_bitmap : List Nat) : List Nat :=
  (inode_bitmap.enum.map (fun p =>
    ((List.range 8).filter (fun bit => Nat.land p.2 (Nat.shiftLeft 1 bit) != 0)).map
      (fun bit => p.1 * 8 + bit))).flatten

/-- The per-inode loop of `extract_all_files`: decode each allocated
inode record, skip directories (`file_type == 1`), and write every other
inode's extracted content to the output file `inode<index>` (reified as
the pair of the index and the bytes). -/
def extractAllLoop (img : List Nat) : List Nat → Option (List (Nat × List Nat))
  | [] => some []
  | inode_index :: rest =>
    match decodeInode (readAt img (BLOCK_SIZE * 2 + DISK_INODE_SIZE * inode_index)
        DISK_INODE_SIZE) with
    | none => none
    | some inode =>
      if inode.file_type = 1 then extractAllLoop img rest
      else
        match extract_inode_data img inode with
        | none => none
        | some file_data =>
          match extractAllLoop img rest with
          | none => none
          | some rs => some ((inode_index, file_data) :: rs)

/-- `extract_all_files(image, output_dir)` from the source: read the
inode bitmap from block 1, enumerate the allocated inode indices, and
extract each non-directory inode to `inode<index>`. -/
def extract_all_files (img : List Nat) : Option (List (Nat × List Nat)) :=
  let inode_bitmap := readAt img BLOCK_SIZE BLOCK_SIZE
  extractAllLoop img (allocatedInodeIndices inode_bitmap)

/-- The two values of the `--mode` CLI option. -/
inductive Mode where
  | restore
  | extract
deriving DecidableEq

/-- What a run of `cli` produces: an aborted run after a magic-number
mismatch (no files written), or the writes of the selected mode. -/
inductive CliOutcome where
  | badMagic (found : Nat)
  | restored (writes : List DirWrite)
  | extracted (writes : List (Nat × List Nat))

/-- Number of output files recorded in a `CliOutcome`. -/
def CliOutcome.fileCount : CliOutcome → Nat
  | .badMagic _ => 0
  | .restored ws => ws.length
  | .extracted ws => ws.length

/-- `cli(image, output, mode)` from the source: read block 0, unpack the
superblock with `"<6I488x"` (failing unless 512 bytes are available),
compare the magic field against `MAGIC_NUMBER`, and on mismatch report
the error and return with nothing extracted; otherwise run the selected
mode. -/
def cli (img : List Nat) (fuel : Nat) (mode : Mode) : Option CliOutcome :=
  let super_block_data := readAt img 0 BLOCK_SIZE
  if super_block_data.length = 512 then
    let magic_number := leNat (super_block_data.take 4)
    if magic_number ≠ MAGIC_NUMBER then some (.badMagic magic_number)
    else
      match mode with
      | .restore => (extract_directory img fuel 0 []).map .restored
      | .extract => (extract_all_files img).map .extracted
  else none

/-! ### Refinement: byte-level extraction vs block-index resolution -/

/-- Payload view of a list of block indices: the concatenation of the
blocks they address. -/
def blockPayload (img : List Nat) (bs : List Nat) : List Nat :=
  (bs.map (readBlock img)).flatten

theorem blockPayload_nil (img : List Nat) : blockPayload img [] = [] := rfl

theorem blockPayload_append (img : List Nat) (a b : List Nat) :
    blockPayload img (a ++ b) = blockPayload img a ++ blockPayload img b := by
  simp [blockPayload]

theorem blockPayload_single (img : List Nat) (i : Nat) :
    blockPayload img [i] = readBlock img i := by
  simp [blockPayload]

theorem blockPayload_cons (img : List Nat) (i : Nat) (rest : List Nat) :
    blockPayload img (i :: rest) = readBlock img i ++ blockPayload img rest := by
  simp [blockPayload]

/-- The direct-pointer loop reads exactly the blocks listed before the
first 0 pointer. -/
theorem readDirectBlocks_eq (img : List Nat) (l : List Nat) :
    readDirectBlocks img l = blockPayload img (l.takeWhile (fun x => x != 0)) := by
  induction l with
  | nil => simp [readDirectBlocks, blockPayload]
  | cons a as ih =>
    by_cases ha : a = 0
    · subst ha
      simp [readDirectBlocks, List.takeWhile_cons, blockPayload]
    · simp [readDirectBlocks, List.takeWhile_cons, ha, ih, blockPayload]

/-- Joint refinement: at every level, `read_indirect_block` returns the
payload of the block indices computed by `resolveIndirect`, and likewise
for the entry walks. -/
theorem readEntries_refines : ∀ (l : Nat) (img : List Nat),
    (∀ idx, read_indirect_block img idx l
        = (resolveIndirect img idx l).map (blockPayload img))
    ∧ (∀ es, readEntries img l es
        = (resolveEntries img l es).map (blockPayload img)) := by
  intro l
  induction l with
  | zero =>
    intro img
    refine ⟨fun idx => by simp [read_indirect_block, resolveIndirect], ?_⟩
    intro es
    induction es with
    | nil => simp [readEntries, resolveEntries, blockPayload_nil]
    | cons i rest ih =>
      by_cases hi : i = 0
      · simp [readEntries, resolveEntries, hi, blockPayload_nil]
      · simp only [readEntries, resolveEntries, hi, if_neg, if_pos, ih]
        cases h : resolveEntries img 0 rest with
        | none => simp
        | some tail => simp [blockPayload_cons]
  | succ m ihm =>
    intro img
    have hread : ∀ idx, read_indirect_block img idx (m + 1)
        = (resolveIndirect img idx (m + 1)).map (blockPayload img) := by
      intro idx
      simp only [read_indirect_block, resolveIndirect]
      cases h : unpackIndirectBlock (readBlock img idx) with
      | none => simp
      | some indices => simpa using ((ihm img).2 indices)
    refine ⟨hread, ?_⟩
    intro es
    induction es with
    | nil => simp [readEntries, resolveEntries, blockPayload_nil]
    | cons i rest ih =>
      by_cases hi : i = 0
      · simp [readEntries, resolveEntries, hi, blockPayload_nil]
      · simp only [readEntries, resolveEntries, hi, if_neg]
        rw [hread i, ih]
        cases hh : resolveIndirect img i (m + 1) with
        | none => simp
        | some head =>
          cases ht : resolveEntries img (m + 1) rest with
          | none => simp
          | some tail => simp [blockPayload_append]

/-- At level 1 the entry walk returns exactly the entries before the
first 0, in array order. -/
theorem resolveEntries_zero (img : List Nat) :
    ∀ es : List Nat, resolveEntries img 0 es = some (es.takeWhile (fun x => x != 0)) := by
  intro es
  induction es with
  | nil => simp [resolveEntries]
  | cons i rest ih =>
    by_cases hi : i = 0
    · simp [resolveEntries, hi, List.takeWhile_cons]
    · simp [resolveEntries, hi, List.takeWhile_cons, ih]

/-- `extract_inode_data` is the payload of the spec-level
`resolveDataBlocks`, truncated to the declared size. -/
theorem extract_inode_data_eq (img : List Nat) (inode : Inode) :
    extract_inode_data img inode
      = (resolveDataBlocks img inode).map
          (fun bs => (blockPayload img bs).take inode.size) := by
  have g1 : (if inode.indirect1 ≠ 0 then read_indirect_block img inode.indirect1 1
        else some [])
      = (if inode.indirect1 ≠ 0 then resolveIndirect img inode.indirect1 1
        else some []).map (blockPayload img) := by
    by_cases e : inode.indirect1 ≠ 0
    · simp [e, (readEntries_refines 1 img).1]
    · simp [e, blockPayload_nil]
  have g2 : (if inode.indirect2 ≠ 0 then read_indirect_block img inode.indirect2 2
        else some [])
      = (if inode.indirect2 ≠ 0 then resolveIndirect img inode.indirect2 2
        else some []).map (blockPayload img) := by
    by_cases e : inode.indirect2 ≠ 0
    · simp [e, (readEntries_refines 2 img).1]
    · simp [e, blockPayload_nil]
  have g3 : (if inode.indirect3 ≠ 0 then read_indirect_block img inode.indirect3 3
        else some [])
      = (if inode.indirect3 ≠ 0 then resolveIndirect img inode.indirect3 3
        else some []).map (blockPayload img) := by
    by_cases e : inode.indirect3 ≠ 0
    · simp [e, (readEntries_refines 3 img).1]
    · simp [e, blockPayload_nil]
  simp only [extract_inode_data, resolveDataBlocks, readDirectBlocks_eq, g1, g2, g3]
  cases o1 : (if inode.indirect1 ≠ 0 then resolveIndirect img inode.indirect1 1
      else some []) with
  | none => simp
  | some b1 =>
    cases o2 : (if inode.indirect2 ≠ 0 then resolveIndirect img inode.indirect2 2
        else some []) with
    | none => simp
    | some b2 =>
      cases o3 : (if inode.indirect3 ≠ 0 then resolveIndirect img inode.indirect3 3
          else some []) with
      | none => simp
      | some b3 => simp [blockPayload_append, List.append_assoc]

/-! ### List and arithmetic helpers -/

/-- `takeWhile` keeps a longest prefix: there is a cut position `n` such
that everything strictly before it satisfies the predicate and the
element at position `n` (when it exists) does not. -/
theorem takeWhile_spec (p : Nat → Bool) (l : List Nat) :
    ∃ n, n ≤ l.length ∧ l.takeWhile p = l.take n
      ∧ (∀ j, j < n → p (l.getD j 0) = true)
      ∧ (n = l.length ∨ p (l.getD n 0) = false) := by
  induction l with
  | nil =>
    refine ⟨0, by simp, by simp, ?_, by simp⟩
    intro j hj
    exact absurd hj (Nat.not_lt_zero j)
  | cons a as ih =>
    by_cases ha : p a
    · obtain ⟨n, hn, ht, hall, hend⟩ := ih
      refine ⟨n + 1, by simpa using hn, ?_, ?_, ?_⟩
      · simp [List.takeWhile_cons, ha, ht]
      · intro j hj
        cases j with
        | zero => simpa using ha
        | succ k => simpa using hall k (by omega)
      · cases hend with
        | inl h => left; simp [h]
        | inr h => right; simpa using h
    · refine ⟨0, by simp, ?_, ?_, ?_⟩
      · simp [List.takeWhile_cons, ha]
      · intro j hj
        exact absurd hj (Nat.not_lt_zero j)
      · right; simpa using ha

/-- Closed form of the Python `range` with step 32, fuel version. -/
theorem pyRange32_aux : ∀ (fuel start stop : Nat), stop - start ≤ fuel →
    pyRange start stop 32
      = (List.range ((stop - start + 31) / 32)).map (fun k => start + k * 32) := by
  intro fuel
  induction fuel with
  | zero =>
    intro start stop h
    rw [pyRange]
    have hc : ¬ (start < stop ∧ 0 < 32) := by omega
    rw [dif_neg hc]
    have hz : (stop - start + 31) / 32 = 0 := by omega
    simp [hz]
  | succ m ih =>
    intro start stop h
    rw [pyRange]
    by_cases hc : start < stop
    · rw [dif_pos ⟨hc, by omega⟩]
      rw [ih (start + 32) stop (by omega)]
      have hcount : (stop - start + 31) / 32 = (stop - (start + 32) + 31) / 32 + 1 := by
        omega
      rw [hcount, List.range_succ_eq_map, List.map_cons, List.map_map]
      refine List.cons_eq_cons.mpr ⟨by omega, ?_⟩
      refine List.map_congr_left ?_
      intro k _
      simp only [Function.comp]
      omega
    · rw [dif_neg (by omega)]
      have hz : (stop - start + 31) / 32 = 0 := by omega
      simp [hz]

/-- Closed form of `range(64, stop, 32)`: the offsets `64 + 32k`. -/
theorem pyRange_64_32 (stop : Nat) :
    pyRange 64 stop 32 = (List.range ((stop - 64 + 31) / 32)).map (fun k => 64 + k * 32) :=
  pyRange32_aux (stop - 64) 64 stop (Nat.le_refl _)

/-- The bitmask test of the bitmap comprehension is exactly `testBit`. -/
theorem land_shiftLeft_testBit (b bit : Nat) :
    (Nat.land b (Nat.shiftLeft 1 bit) != 0) = Nat.testBit b bit := by
  have h : Nat.land b (Nat.shiftLeft 1 bit) = b &&& 2 ^ bit := by
    calc Nat.land b (Nat.shiftLeft 1 bit) = b &&& (1 <<< bit) := rfl
      _ = b &&& 2 ^ bit := by rw [Nat.one_shiftLeft]
  rw [h, Nat.and_two_pow]
  cases ht : Nat.testBit b bit <;> simp [Nat.pos_iff_ne_zero]

/-- Generalisation of `allocatedInodeIndices` to an arbitrary first byte
index, for induction. -/
def allocFrom (n : Nat) (inode_bitmap : List Nat) : List Nat :=
  ((List.enumFrom n inode_bitmap).map (fun p =>
    ((List.range 8).filter (fun bit => Nat.land p.2 (Nat.shiftLeft 1 bit) != 0)).map
      (fun bit => p.1 * 8 + bit))).flatten

theorem allocatedInodeIndices_eq (bm : List Nat) :
    allocatedInodeIndices bm = allocFrom 0 bm := rfl

theorem allocFrom_cons (n b : Nat) (rest : List Nat) :
    allocFrom n (b :: rest)
      = ((List.range 8).filter (fun bit => Nat.land b (Nat.shiftLeft 1 bit) != 0)).map
          (fun bit => n * 8 + bit) ++ allocFrom (n + 1) rest := by
  simp [allocFrom, List.enumFrom]

/-- Every index produced from byte position `n` onwards is at least `n * 8`. -/
theorem mem_allocFrom_bounds : ∀ (bm : List Nat) (n k : Nat),
    k ∈ allocFrom n bm → n * 8 ≤ k := by
  intro bm
  induction bm with
  | nil =>
    intro n k h
    simp [allocFrom] at h
  | cons b rest ih =>
    intro n k h
    rw [allocFrom_cons] at h
    rcases List.mem_append.mp h with h1 | h2
    · obtain ⟨bit, _, rfl⟩ := List.mem_map.mp h1
      omega
    · have := ih (n + 1) k h2
      omega

/-- The produced indices are strictly ascending. -/
theorem allocFrom_sorted : ∀ (bm : List Nat) (n : Nat),
    List.Pairwise (· < ·) (allocFrom n bm) := by
  intro bm
  induction bm with
  | nil =>
    intro n
    simp [allocFrom]
  | cons b rest ih =>
    intro n
    rw [allocFrom_cons]
    refine List.pairwise_append.mpr ⟨?_, ih (n + 1), ?_⟩
    · refine List.pairwise_map.mpr ?_
      have hr : List.Pairwise (· < ·) (List.range 8) := List.pairwise_lt_range 8
      have hf : List.Pairwise (· < ·)
          ((List.range 8).filter (fun bit => Nat.land b (Nat.shiftLeft 1 bit) != 0)) :=
        hr.sublist (List.filter_sublist (List.range 8))
      exact hf.imp (fun hab => by omega)
    · intro x hx y hy
      obtain ⟨bit, hmem, rfl⟩ := List.mem_map.mp hx
      obtain ⟨hr, _⟩ := List.mem_filter.mp hmem
      have hb := List.mem_range.mp hr
      have hy8 := mem_allocFrom_bounds rest (n + 1) y hy
      omega

/-- Membership characterisation: an index is produced exactly when it is
`(n + i) * 8 + bit` for a set bit `bit` of byte `i`. -/
theorem mem_allocFrom_iff : ∀ (bm : List Nat) (n k : Nat),
    k ∈ allocFrom n bm
      ↔ ∃ i bit, i < bm.length ∧ bit < 8
          ∧ Nat.testBit (bm.getD i 0) bit ∧ k = (n + i) * 8 + bit := by
  intro bm
  induction bm with
  | nil =>
    intro n k
    simp [allocFrom]
  | cons b rest ih =>
    intro n k
    rw [allocFrom_cons, List.mem_append, ih (n + 1)]
    constructor
    · rintro (h1 | ⟨i, bit, hi, hb, ht, rfl⟩)
      · obtain ⟨bit, hmem, rfl⟩ := List.mem_map.mp h1
        obtain ⟨hr, hf⟩ := List.mem_filter.mp hmem
        refine ⟨0, bit, by simp, List.mem_range.mp hr, ?_, by omega⟩
        rw [land_shiftLeft_testBit] at hf
        simpa using hf
      · exact ⟨i + 1, bit, by simpa using Nat.succ_lt_succ hi, hb,
          by simpa using ht, by omega⟩
    · rintro ⟨i, bit, hi, hb, ht, rfl⟩
      cases i with
      | zero =>
        left
        refine List.mem_map.mpr ⟨bit, List.mem_filter.mpr ⟨List.mem_range.mpr hb, ?_⟩,
          by omega⟩
        rw [land_shiftLeft_testBit]
        simpa using ht
      | succ j =>
        right
        exact ⟨j, bit, by simpa using hi, hb, by simpa using ht, by omega⟩

/-! ### Concrete witness images -/

/-- Image for C1: block 0 empty, block 1 an indirect block whose entries
begin 10, 11, 12 and then 0. -/
def imgC1 : List Nat :=
  List.replicate 512 0 ++ ([10, 0, 0, 0, 11, 0, 0, 0, 12, 0, 0, 0] ++ List.replicate 500 0)

/-- Inode for C1: no direct blocks, single-indirect pointer to block 1. -/
def inoC1 : Inode := ⟨0, 17, List.replicate 27 0, 1, 0, 0⟩

/-- Inode for C2: direct pointers 5, 7 and then 0s, no indirection. -/
def inoC2 : Inode := ⟨0, 0, [5, 7] ++ List.replicate 25 0, 0, 0, 0⟩

/-- Image for C3: 2048 zero bytes, so block 2 is fully available. -/
def imgC3 : List Nat := List.replicate 2048 0

/-- Inode for C3: declared size 600 but only one data block (512 bytes). -/
def inoC3 : Inode := ⟨0, 600, 2 :: List.replicate 26 0, 0, 0, 0⟩

/-- Image for C4: 2048 bytes of value 7. -/
def imgC4 : List Nat := List.replicate 2048 7

/-- Inode for C4: declared size 600 with two data blocks (1024 bytes). -/
def inoC4 : Inode := ⟨0, 600, [2, 3] ++ List.replicate 25 0, 0, 0, 0⟩

/-- Image for C6: inode 0 is a directory of size 96 (two skipped entries
plus one child entry) whose content is block 4; the child entry names
inode 1 (an empty regular file) with the one-byte name 97. -/
def imgC6 : List Nat :=
  List.replicate 1024 0
    ++ ([1, 0, 0, 0, 96, 0, 0, 0, 4, 0, 0, 0] ++ List.replicate 116 0)
    ++ List.replicate 896 0
    ++ (List.replicate 64 0 ++ ([97] ++ List.replicate 27 0 ++ [1, 0, 0, 0])
        ++ List.replicate 416 0)

/-- Image for the C6 witness: inode 0 is a directory of declared size 64
(only the two skipped entries), its content in block 4. -/
def imgC6b : List Nat :=
  List.replicate 1024 0
    ++ ([1, 0, 0, 0, 64, 0, 0, 0, 4, 0, 0, 0] ++ List.replicate 116 0)
    ++ List.replicate 896 0 ++ List.replicate 512 0

/-- Image for C7: inode bitmap (block 1) has bits 0, 3, 5 set; inode 0 is
a directory, inodes 3 and 5 are empty regular files. -/
def imgC7 : List Nat :=
  List.replicate 512 0 ++ ([41] ++ List.replicate 511 0) ++ ([1] ++ List.replicate 767 0)

/-- Image for C8: 512 zero bytes, so the magic field is 0. -/
def imgC8 : List Nat := List.replicate 512 0

/-- Image for C9: 1100 bytes, so block 2 has only 76 bytes available. -/
def imgC9 : List Nat := List.replicate 1100 0

/-- Inode for C9: one direct block (index 2), declared size 512. -/
def inoC9 : Inode := ⟨0, 512, 2 :: List.replicate 26 0, 0, 0, 0⟩

/-- Directory entry for C10: 28 non-null name bytes, child inode index 0. -/
def entryC10 : List Nat := List.replicate 28 1 ++ [0, 0, 0, 0]

/-- Directory entry for the C10 counterexample: a name field of 28
bytes 0xFF - no null byte, but not valid UTF-8. -/
def entryC10bad : List Nat := List.replicate 28 255 ++ [0, 0, 0, 0]

/-- `u32sOf` yields one entry per full group of four bytes. -/
theorem u32sOf_length : ∀ l : List Nat, (u32sOf l).length = l.length / 4
  | [] => by simp [u32sOf]
  | [_] => by simp [u32sOf]
  | [_, _] => by simp [u32sOf]
  | [_, _, _] => by simp [u32sOf]
  | _ :: _ :: _ :: _ :: rest => by
    have ih := u32sOf_length rest
    simp [u32sOf, ih]
    omega

/-- `takeWhile` is the identity on lists all of whose elements satisfy
the predicate. -/
theorem takeWhile_all (p : Nat → Bool) : ∀ l : List Nat, (∀ b ∈ l, p b) → l.takeWhile p = l := by
  intro l
  induction l with
  | nil => intro _; rfl
  | cons a as ih =>
    intro h
    rw [List.takeWhile_cons, if_pos (h a (by simp))]
    rw [ih (fun b hb => h b (by simp [hb]))]

/-- Every successful resolution starts with the direct pointers before
the first 0. -/
theorem resolveDataBlocks_direct (img : List Nat) (inode : Inode) (bs : List Nat)
    (h : resolveDataBlocks img inode = some bs) :
    ∃ r, bs = inode.direct.takeWhile (fun x => x != 0) ++ r := by
  rcases o1 : (if inode.indirect1 ≠ 0 then resolveIndirect img inode.indirect1 1
      else some []) with _ | b1 <;>
  rcases o2 : (if inode.indirect2 ≠ 0 then resolveIndirect img inode.indirect2 2
      else some []) with _ | b2 <;>
  rcases o3 : (if inode.indirect3 ≠ 0 then resolveIndirect img inode.indirect3 3
      else some []) with _ | b3 <;>
    simp only [resolveDataBlocks, o1, o2, o3, Option.some_inj] at h
  all_goals
    first
      | exact ⟨b1 ++ (b2 ++ b3), by rw [← h]; simp [List.append_assoc]⟩
      | exact absurd h (by simp)

/-! ### Claims -/

set_option maxRecDepth 8000

/-- C1: resolving a nonzero level-L indirect pointer reads the referenced
512-byte block as 128 little-endian 4-byte block indices and processes
its entries in array order stopping at the first 0: the byte-level
`read_indirect_block` appends, for each nonzero entry, the raw data
block at level 1 or the recursive level-(L-1) resolution otherwise
(it equals the payload of the block-index resolution at every level);
at level 1 the resolved blocks are exactly the unpacked entries before
the first 0; and an inode using only a single-indirect pointer whose
indirect block begins 10, 11, 12 followed by 0 resolves to exactly the
block list 10, 11, 12. -/
theorem C1_indirect_resolution :
    (∀ img idx level, read_indirect_block img idx level
        = (resolveIndirect img idx level).map (blockPayload img))
    ∧ (∀ img idx es, unpackIndirectBlock (readBlock img idx) = some es →
        resolveIndirect img idx 1 = some (es.takeWhile (fun x => x != 0)))
    ∧ resolveDataBlocks imgC1 inoC1 = some [10, 11, 12] := by
  refine ⟨fun img idx level => (readEntries_refines level img).1 idx, ?_, ?_⟩
  · intro img idx es h
    rw [resolveIndirect.eq_def]
    simp only [h, resolveEntries_zero]
  · have h1 : unpackIndirectBlock (readBlock imgC1 1)
        = some ([10, 11, 12] ++ List.replicate 125 0) := by decide
    have h2 : resolveIndirect imgC1 1 1 = some [10, 11, 12] := by
      rw [resolveIndirect.eq_def]
      simp only [h1, resolveEntries_zero]
      decide
    simp [resolveDataBlocks, inoC1, h2]

/-- C1 witness: the level-1 characterisation applied to the concrete
image whose indirect block 1 begins 10, 11, 12, 0. -/
theorem C1_indirect_resolution_witness :
    resolveIndirect imgC1 1 1
      = some ((([10, 11, 12] ++ List.replicate 125 0)).takeWhile (fun x => x != 0)) :=
  C1_indirect_resolution.2.1 imgC1 1 ([10, 11, 12] ++ List.replicate 125 0) (by decide)

/-- C2: block-address resolution starts with the inode's direct
pointers in field order (27 of them for every decoded inode record),
stopping at the first direct pointer equal to 0 and including neither
that 0 nor any later direct pointer; an inode with direct pointers
5, 7, 0, ... resolves its direct portion to exactly 5, 7. -/
theorem C2_direct_resolution :
    (∀ data ino, decodeInode data = some ino → ino.direct.length = 27)
    ∧ (∀ img inode bs, resolveDataBlocks img inode = some bs →
        ∃ n rest, n ≤ inode.direct.length
          ∧ bs = inode.direct.take n ++ rest
          ∧ (∀ j, j < n → inode.direct.getD j 0 ≠ 0)
          ∧ (n = inode.direct.length ∨ inode.direct.getD n 0 = 0))
    ∧ resolveDataBlocks [] inoC2 = some [5, 7] := by
  refine ⟨?_, ?_, by decide⟩
  · intro data ino h
    rw [decodeInode] at h
    by_cases hl : data.length = 128
    · rw [if_pos hl] at h
      rw [Option.some_inj] at h
      have hws : (u32sOf (data.drop 4)).length = 31 := by
        rw [u32sOf_length, List.length_drop, hl]
      rw [← h]
      simp [List.length_take, hws]
    · rw [if_neg hl] at h
      exact absurd h (by simp)
  · intro img inode bs h
    obtain ⟨r, hr⟩ := resolveDataBlocks_direct img inode bs h
    obtain ⟨n, hn, ht, hall, hend⟩ := takeWhile_spec (fun x => x != 0) inode.direct
    refine ⟨n, r, hn, by rw [hr, ht], ?_, ?_⟩
    · intro j hj
      simpa using hall j hj
    · cases hend with
      | inl hh => exact Or.inl hh
      | inr hh => exact Or.inr (by simpa using hh)

/-- C2 witness: the direct-portion decomposition applied to the inode
with direct pointers 5, 7, 0, ..., and the 27-pointer count applied to
the decoded root inode of the C6 image. -/
theorem C2_direct_resolution_witness :
    (Inode.mk 1 96 ([4] ++ List.replicate 26 0) 0 0 0).direct.length = 27
    ∧ ∃ n rest, n ≤ inoC2.direct.length
        ∧ [5, 7] = inoC2.direct.take n ++ rest
        ∧ (∀ j, j < n → inoC2.direct.getD j 0 ≠ 0)
        ∧ (n = inoC2.direct.length ∨ inoC2.direct.getD n 0 = 0) :=
  ⟨C2_direct_resolution.1 (readAt imgC6 (BLOCK_SIZE * 2) DISK_INODE_SIZE) _ (by decide),
   C2_direct_resolution.2.1 [] inoC2 [5, 7] (by decide)⟩

/-- C3 counterexample: an inode declaring 600 bytes whose pointers only
resolve 512 bytes: `extract_inode_data` succeeds and silently returns
the 512-byte buffer instead of failing with an `IncompleteData` error,
so the short content is written. -/
theorem C3_short_data_counterexample :
    inoC3.size = 600
    ∧ extract_inode_data imgC3 inoC3 = some (List.replicate 512 0)
    ∧ (List.replicate 512 0).length < inoC3.size :=
  ⟨rfl, by decide, by decide⟩

/-- C3 amended: when the resolved blocks yield fewer bytes than the
declared size, extraction does not fail — it returns the whole (short)
resolved payload unchanged, and that short buffer is what gets
written. -/
theorem C3_short_data_amended :
    ∀ img inode bs, resolveDataBlocks img inode = some bs →
      (blockPayload img bs).length < inode.size →
      extract_inode_data img inode = some (blockPayload img bs) := by
  intro img inode bs h hlt
  rw [extract_inode_data_eq, h]
  simp [List.take_of_length_le (Nat.le_of_lt hlt)]

/-- C3 amended witness: the 600-byte inode over a single 512-byte block. -/
theorem C3_short_data_amended_witness :
    extract_inode_data imgC3 inoC3 = some (blockPayload imgC3 [2]) :=
  C3_short_data_amended imgC3 inoC3 [2] (by decide) (by decide)

/-- C4: when the resolved blocks supply at least `inode.size` bytes,
extraction returns exactly `inode.size` bytes, namely the prefix of the
resolved blocks' payloads concatenated in resolution order. -/
theorem C4_content_extraction :
    ∀ img inode bs, resolveDataBlocks img inode = some bs →
      inode.size ≤ (blockPayload img bs).length →
      extract_inode_data img inode = some ((blockPayload img bs).take inode.size)
      ∧ ((blockPayload img bs).take inode.size).length = inode.size := by
  intro img inode bs h hle
  refine ⟨?_, ?_⟩
  · rw [extract_inode_data_eq, h]
    rfl
  · rw [List.length_take]
    omega

/-- C4 witness: declared size 600 with two resolved 512-byte blocks
yields exactly the 600-byte prefix of their concatenation. -/
theorem C4_content_extraction_witness :
    extract_inode_data imgC4 inoC4 = some ((blockPayload imgC4 [2, 3]).take 600)
    ∧ ((blockPayload imgC4 [2, 3]).take 600).length = 600 :=
  C4_content_extraction imgC4 inoC4 [2, 3] (by decide) (by decide)

/-- C6: the directory walk iterates the extracted content as 32-byte
entries at offsets 64, 96, ... below the inode's size (skipping the two
32-byte self/parent entries); a directory of content size 64 produces
no children and no writes; and recursion enters each decoded child
inode with the entry's name joined onto the parent path, as on the
concrete one-child image, parametrically in the parent path. -/
theorem C6_directory_walk :
    (∀ stop, pyRange (DIR_ENTRY_SIZE * 2) stop DIR_ENTRY_SIZE
        = (List.range ((stop - 64 + 31) / 32)).map (fun k => 64 + k * 32))
    ∧ (∀ img fuel idx path inode data,
        decodeInode (readAt img (BLOCK_SIZE * 2 + DISK_INODE_SIZE * idx) DISK_INODE_SIZE)
          = some inode →
        inode.file_type = 1 → inode.size = 64 →
        extract_inode_data img inode = some data →
        extract_directory img (fuel + 1) idx path = some [])
    ∧ (∀ path, extract_directory imgC6 3 0 path = some [(path ++ [[97]], [])]) := by
  refine ⟨fun stop => pyRange_64_32 stop, ?_, ?_⟩
  · intro img fuel idx path inode data hino hft hsz hdata
    rw [extract_directory, hino]
    simp only [hft, hdata, if_pos]
    have hrange : pyRange (DIR_ENTRY_SIZE * 2) inode.size DIR_ENTRY_SIZE = [] := by
      rw [hsz]
      show pyRange 64 64 32 = []
      rw [pyRange_64_32]
      decide
    rw [hrange, dirEntryLoop]
  · intro path
    have hino : decodeInode (readAt imgC6 (BLOCK_SIZE * 2 + DISK_INODE_SIZE * 0) DISK_INODE_SIZE)
        = some ⟨1, 96, [4] ++ List.replicate 26 0, 0, 0, 0⟩ := by decide
    have hdata : extract_inode_data imgC6 ⟨1, 96, [4] ++ List.replicate 26 0, 0, 0, 0⟩
        = some (List.replicate 64 0 ++ ([97] ++ List.replicate 27 0 ++ [1, 0, 0, 0])) := by
      decide
    have hrange : pyRange (DIR_ENTRY_SIZE * 2) 96 DIR_ENTRY_SIZE = [64] := by
      show pyRange 64 96 32 = [64]
      rw [pyRange_64_32]
      decide
    have hentry : decodeDirEntry (readAt
        (List.replicate 64 0 ++ ([97] ++ List.replicate 27 0 ++ [1, 0, 0, 0])) 64 DIR_ENTRY_SIZE)
        = some ([97], 1) := by decide
    have hino1 : decodeInode (readAt imgC6 (BLOCK_SIZE * 2 + DISK_INODE_SIZE * 1) DISK_INODE_SIZE)
        = some ⟨0, 0, List.replicate 27 0, 0, 0, 0⟩ := by decide
    have hfile : extract_inode_data imgC6 ⟨0, 0, List.replicate 27 0, 0, 0, 0⟩ = some [] := by
      decide
    have hchild : ∀ p : List (List Nat),
        extract_directory imgC6 2 1 p = some [(p, [])] := by
      intro p
      show extract_directory imgC6 (1 + 1) 1 p = some [(p, [])]
      rw [extract_directory, hino1]
      simp only [hfile]
      norm_num
    show extract_directory imgC6 (2 + 1) 0 path = some [(path ++ [[97]], [])]
    rw [extract_directory, hino]
    simp only [hdata, hrange]
    show dirEntryLoop imgC6 2 _ path [64] = _
    rw [dirEntryLoop, hentry]
    simp only [hchild]
    rw [dirEntryLoop]
    rfl

/-- C6 witness: the no-children property applied to the concrete image
whose root directory has declared size 64. -/
theorem C6_directory_walk_witness :
    extract_directory imgC6b (0 + 1) 0 [] = some [] :=
  C6_directory_walk.2.1 imgC6b 0 0 []
    ⟨1, 64, [4] ++ List.replicate 26 0, 0, 0, 0⟩ (List.replicate 64 0)
    (by decide) (by decide) (by decide) (by decide)

/-- C7: scanning the inode bitmap yields the allocated indices in
strictly ascending order, index `i * 8 + bit` appearing exactly when bit
`bit` (LSB-first) of byte `i` is set; and flat extraction over the
concrete image whose bitmap has bits 0, 3, 5 set with inode 0 a
directory writes exactly the files for inodes 3 and 5. -/
theorem C7_bitmap_scan :
    (∀ bm : List Nat, List.Pairwise (· < ·) (allocatedInodeIndices bm))
    ∧ (∀ (bm : List Nat) (k : Nat), k ∈ allocatedInodeIndices bm
        ↔ ∃ i bit, i < bm.length ∧ bit < 8
            ∧ Nat.testBit (bm.getD i 0) bit ∧ k = i * 8 + bit)
    ∧ extract_all_files imgC7 = some [(3, []), (5, [])] := by
  refine ⟨?_, ?_, by decide⟩
  · intro bm
    rw [allocatedInodeIndices_eq]
    exact allocFrom_sorted bm 0
  · intro bm k
    rw [allocatedInodeIndices_eq, mem_allocFrom_iff]
    constructor
    · rintro ⟨i, bit, h1, h2, h3, h4⟩
      exact ⟨i, bit, h1, h2, h3, by omega⟩
    · rintro ⟨i, bit, h1, h2, h3, h4⟩
      exact ⟨i, bit, h1, h2, h3, by omega⟩

/-- C8: whenever the image's superblock magic field (first 4
little-endian bytes) differs from `MAGIC_NUMBER`, the run stops with the
reported `badMagic` outcome in both modes and zero output files are
written. -/
theorem C8_bad_magic :
    ∀ (img : List Nat) (fuel : Nat) (mode : Mode), 512 ≤ img.length →
      leNat ((readAt img 0 BLOCK_SIZE).take 4) ≠ MAGIC_NUMBER →
      cli img fuel mode
          = some (CliOutcome.badMagic (leNat ((readAt img 0 BLOCK_SIZE).take 4)))
      ∧ (cli img fuel mode).map CliOutcome.fileCount = some 0 := by
  intro img fuel mode hlen hm
  have hsb : (readAt img 0 BLOCK_SIZE).length = 512 := by
    simp [readAt, BLOCK_SIZE]
    omega
  have h1 : cli img fuel mode
      = some (CliOutcome.badMagic (leNat ((readAt img 0 BLOCK_SIZE).take 4))) := by
    simp only [cli]
    rw [if_pos hsb, if_pos hm]
  exact ⟨h1, by rw [h1]; rfl⟩

/-- C8 witness: the all-zero 512-byte image (magic field 0) aborts with
`badMagic` and zero files in both restore and extract mode. -/
theorem C8_bad_magic_witness :
    (cli imgC8 5 Mode.restore
        = some (CliOutcome.badMagic (leNat ((readAt imgC8 0 BLOCK_SIZE).take 4)))
      ∧ (cli imgC8 5 Mode.restore).map CliOutcome.fileCount = some 0)
    ∧ (cli imgC8 5 Mode.extract
        = some (CliOutcome.badMagic (leNat ((readAt imgC8 0 BLOCK_SIZE).take 4)))
      ∧ (cli imgC8 5 Mode.extract).map CliOutcome.fileCount = some 0) :=
  ⟨C8_bad_magic imgC8 5 Mode.restore (by decide) (by decide),
   C8_bad_magic imgC8 5 Mode.extract (by decide) (by decide)⟩

/-- C9 counterexample: on a truncated 1100-byte image, reading block 2
returns only 76 bytes, and extracting an inode whose data lives there
succeeds with that short buffer — no `ShortRead` failure is raised and
no zero padding is added. -/
theorem C9_short_read_counterexample :
    (readBlock imgC9 2).length = 76
    ∧ extract_inode_data imgC9 inoC9 = some (List.replicate 76 0) :=
  ⟨by decide, by decide⟩

/-- C9 amended: reading a block returns the bytes available at offset
`index * 512`, up to 512 and possibly fewer near the end of the image,
with no error and no padding; a short buffer is reported only where a
`struct` unpack consumes it — `unpackIndirectBlock` fails exactly when
fewer than 512 bytes are available — while raw data blocks are consumed
as-is. -/
theorem C9_short_read_amended :
    ∀ (img : List Nat) (index : Nat),
      (readBlock img index).length = min BLOCK_SIZE (img.length - index * BLOCK_SIZE)
      ∧ (unpackIndirectBlock (readBlock img index) = none
          ↔ img.length < index * BLOCK_SIZE + BLOCK_SIZE) := by
  intro img index
  have hlen : (readBlock img index).length = min 512 (img.length - index * 512) := by
    simp [readBlock, readAt, BLOCK_SIZE]
  refine ⟨hlen, ?_⟩
  rw [unpackIndirectBlock]
  by_cases h : (readBlock img index).length = 512
  · rw [if_pos h]
    simp only [BLOCK_SIZE] at *
    constructor
    · intro hc
      exact absurd hc (by simp)
    · intro hc
      exact absurd hc (by omega)
  · rw [if_neg h]
    simp only [BLOCK_SIZE] at *
    constructor
    · intro _
      omega
    · intro _
      trivial

/-- C10 counterexample: a 32-byte entry whose 28-byte name field has no
null byte but is not valid UTF-8 (28 bytes 0xFF) makes the decode fail
with a `UnicodeDecodeError` - so decoding a no-null entry can fail,
contrary to the claim. -/
theorem C10_no_null_counterexample :
    entryC10bad.length = 32
    ∧ (∀ b ∈ entryC10bad.take 28, b ≠ 0)
    ∧ decodeDirEntryText entryC10bad = none :=
  ⟨by decide, by decide, by decide⟩

/-- C10 amended: a 32-byte entry whose 28-byte name field contains no
null byte is never truncated: when the field is valid UTF-8, decoding
succeeds with the entire 28-byte field as the name together with the
little-endian child inode index; when it is not valid UTF-8, decoding
fails with a `UnicodeDecodeError` rather than truncating. -/
theorem C10_no_null_full_name :
    ∀ e : List Nat, e.length = 32 → (∀ b ∈ e.take 28, b ≠ 0) →
      (validUtf8 (e.take 28) = true →
        decodeDirEntryText e = some (e.take 28, leNat (e.drop 28)))
      ∧ (validUtf8 (e.take 28) = false → decodeDirEntryText e = none) := by
  intro e hlen hnz
  have hsplit : decodeDirEntry e = some (e.take 28, leNat (e.drop 28)) := by
    rw [decodeDirEntry, if_pos hlen]
    rw [takeWhile_all (fun b => b != 0) (e.take 28) (fun b hb => by simpa using hnz b hb)]
  constructor
  · intro hv
    simp only [decodeDirEntryText, hsplit, hv, if_true]
  · intro hv
    simp only [decodeDirEntryText, hsplit, hv]
    rfl

/-- C10 witness: the entry whose name field is 28 bytes of value 1
(valid UTF-8, no nulls) decodes to the full 28-byte name. -/
theorem C10_no_null_full_name_witness :
    decodeDirEntryText entryC10 = some (entryC10.take 28, leNat (entryC10.drop 28)) :=
  (C10_no_null_full_name entryC10 (by decide) (by decide)).1 (by decide)
